import Mathlib

/-!
Shallow embedding of `components/file_system/src/rate_limiter.rs`
(priority-based IO rate limiter).

Conventions of the embedding:
* `usize` counters are modelled as `ℕ`. The spec (§7) requires counters wide
  enough that epoch-scale byte totals cannot wrap, so wrapping arithmetic on
  the byte counters is out of scope; the one place where a deliberate
  truncating cast occurs in the source (`(pending / budget) as u32`) is
  modelled with an explicit `% 2 ^ 32`.
* Instants (`Instant::now_coarse`) and `Duration`s are modelled in integer
  milliseconds (`ℕ`); `DEFAULT_REFILL_PERIOD = Duration::from_millis(40)`
  becomes the constant `40`.
* The concurrency structure (atomics, the `protected` mutex) is flattened
  into a single sequential state record `LimiterState`; each public
  operation becomes a pure state-transformer. The blocking step
  (`do_sleep!`) is not executed; instead the request path returns the
  computed wait duration alongside the granted amount.
* The `f64` arithmetic in `set_bytes_per_sec` is modelled exactly by a
  dyadic-rational IEEE-754 binary64 model (53-bit round-to-nearest-even
  significand rounding), covering the normal (non-subnormal, non-overflow)
  range exercised by the function.
-/

/-- Modelled from the spec: the `IOPriority` enumeration lives outside this
file (in the crate's `mod.rs`); the spec (§3) fixes exactly three ordered
levels High > Medium > Low with `Low` the smallest ordinal and `High` the
largest, an ordering the source asserts via
`debug_assert!(IOPriority::High as usize > IOPriority::Medium as usize)`. -/
inductive IOPriority : Type
| Low : IOPriority
| Medium : IOPriority
| High : IOPriority
deriving DecidableEq, Repr

/-- Modelled from the spec: `IOOp` is declared outside this file; the spec
(§3) gives it exactly two variants, read and write. -/
inductive IOOp : Type
| Read : IOOp
| Write : IOOp
deriving DecidableEq, Repr

/-- Modelled from the spec: `IOType` is declared outside this file and is used
by the facade only to look up a priority (§3). We include the three variants
the repository's tests exercise; the facade code treats the type opaquely, so
the claims do not depend on the exact variant set. -/
inductive IOType : Type
| ForegroundWrite : IOType
| Compaction : IOType
| Imported : IOType
deriving DecidableEq, Repr

/-- An array indexed by `IOPriority` (the source uses
`[CachePadded<AtomicUsize>; IOPriority::COUNT]` / `[usize; IOPriority::COUNT]`). -/
structure PArr : Type where
  low : ℕ
  med : ℕ
  high : ℕ
deriving DecidableEq, Repr

/-- Indexing `arr[p as usize]`. -/
def PArr.get (a : PArr) : IOPriority → ℕ
  | IOPriority.Low => a.low
  | IOPriority.Medium => a.med
  | IOPriority.High => a.high

/-- Storing `arr[p as usize] = v`. -/
def PArr.set (a : PArr) : IOPriority → ℕ → PArr
  | IOPriority.Low, v => { a with low := v }
  | IOPriority.Medium, v => { a with med := v }
  | IOPriority.High, v => { a with high := v }

/-- `struct IOThroughputEstimator { count: usize, sum: usize }`
(rate_limiter.rs lines 105-111). -/
structure IOThroughputEstimator : Type where
  count : ℕ
  sum : ℕ
deriving DecidableEq, Repr

/-- `IOThroughputEstimator::new()` (lines 114-116). -/
def IOThroughputEstimator.new : IOThroughputEstimator := ⟨0, 0⟩

/-- `WINDOW_SIZE` (line 119). -/
def WINDOW_SIZE : ℕ := 5

/-- `IOThroughputEstimator::maybe_update_estimation` (lines 118-130): bump
`count`, accumulate `sum`; every `WINDOW_SIZE`-th sample emit the window
average (integer division) and reset the accumulator. Returns the optional
estimate together with the updated estimator. -/
def maybe_update_estimation (e : IOThroughputEstimator) (v : ℕ) :
    Option ℕ × IOThroughputEstimator :=
  let count := e.count + 1
  let sum := e.sum + v
  if count % WINDOW_SIZE = 0 then
    (some (sum / WINDOW_SIZE), ⟨count, 0⟩)
  else
    (none, ⟨count, sum⟩)

/-- An array of estimators indexed by `IOPriority`
(`estimated_bytes_through: [IOThroughputEstimator; IOPriority::COUNT]`). -/
structure EArr : Type where
  low : IOThroughputEstimator
  med : IOThroughputEstimator
  high : IOThroughputEstimator
deriving DecidableEq, Repr

/-- Indexing the estimator array. -/
def EArr.get (a : EArr) : IOPriority → IOThroughputEstimator
  | IOPriority.Low => a.low
  | IOPriority.Medium => a.med
  | IOPriority.High => a.high

/-- `DEFAULT_REFILL_PERIOD = Duration::from_millis(40)` (line 73), in ms. -/
def DEFAULT_REFILL_PERIOD : ℕ := 40

/-- The whole state of `PriorityBasedIORateLimiter` (lines 77-93): the two
atomic arrays plus the mutex-protected record, flattened into one record for
the sequential embedding. -/
structure LimiterState : Type where
  bytesThrough : PArr
  bytesPerEpoch : PArr
  nextRefillTime : ℕ
  pendingBytes : PArr
  estimators : EArr
deriving DecidableEq, Repr

/-- `PriorityBasedIORateLimiter::new()` (lines 180-186) together with
`PriorityBasedIORateLimiterProtected::new()` (lines 96-102): zero counters and
budgets, `next_refill_time = now + DEFAULT_REFILL_PERIOD` where `t0` is the
construction instant. -/
def LimiterState.new (t0 : ℕ) : LimiterState :=
  { bytesThrough := ⟨0, 0, 0⟩
    bytesPerEpoch := ⟨0, 0, 0⟩
    nextRefillTime := t0 + DEFAULT_REFILL_PERIOD
    pendingBytes := ⟨0, 0, 0⟩
    estimators := ⟨IOThroughputEstimator.new, IOThroughputEstimator.new,
      IOThroughputEstimator.new⟩ }

/-!  IEEE-754 binary64 model for `set_bytes_per_sec`'s
`(bytes_per_sec as f64 * DEFAULT_REFILL_PERIOD.as_secs_f64()) as usize`
(line 192).  A nonnegative double in the normal range is represented as a
dyadic rational `num / 2 ^ exp`. -/

/-- Number of binary digits of `n` (0 for 0). The first argument is fuel,
always instantiated with `n` itself, making the recursion structural. -/
def bit_len : ℕ → ℕ → ℕ
  | 0, _ => 0
  | fuel + 1, n => if n = 0 then 0 else bit_len fuel (n / 2) + 1

/-- Round the integer `n` to 53 significant bits, round-to-nearest,
ties-to-even: the significand-rounding core of binary64 arithmetic. -/
def rnd53 (n : ℕ) : ℕ :=
  let L := bit_len n n
  if L ≤ 53 then n
  else
    let s := L - 53
    let keep := n / 2 ^ s
    let rem := n % 2 ^ s
    let half := 2 ^ (s - 1)
    let keep2 :=
      if half < rem then keep + 1
      else if rem < half then keep
      else if keep % 2 = 0 then keep else keep + 1
    keep2 * 2 ^ s

/-- A nonnegative binary64 value in the normal range: `num / 2 ^ exp`. -/
structure F64 : Type where
  num : ℕ
  exp : ℕ
deriving DecidableEq, Repr

/-- `n as f64` for an unsigned integer: round-to-nearest-even conversion
(exact for `n < 2 ^ 53`). -/
def f64_of_nat (n : ℕ) : F64 := ⟨rnd53 n, 0⟩

/-- Correctly rounded binary64 product of two dyadic doubles: the exact
product rounded to 53 significant bits. -/
def f64_mul (a b : F64) : F64 := ⟨rnd53 (a.num * b.num), a.exp + b.exp⟩

/-- `x as usize` for a nonnegative double: truncation toward zero. -/
def f64_trunc_nat (a : F64) : ℕ := a.num / 2 ^ a.exp

/-- Correctly rounded binary64 quotient `n / d` of two positive integers:
scale `n` up by `2 ^ P` (with `P` large enough that the integer quotient has
more than 53 bits), take the top 53 bits and round to nearest (ties to even)
using the exact remainder. -/
def f64_div (n d : ℕ) : F64 :=
  let P := bit_len n n + bit_len d d + 60
  let z := n * 2 ^ P
  let q := z / d
  let r := z % d
  let L := bit_len q q
  let s := L - 53
  let keep := q / 2 ^ s
  let rem := q % 2 ^ s
  let frac := rem * d + r
  let half := 2 ^ (s - 1) * d
  let keep2 :=
    if half < frac then keep + 1
    else if frac < half then keep
    else if keep % 2 = 0 then keep else keep + 1
  ⟨keep2, P - s⟩

/-- `DEFAULT_REFILL_PERIOD.as_secs_f64()`: the `Duration` stores
`(secs, nanos) = (0, 40_000_000)` and `as_secs_f64` computes
`secs as f64 + nanos as f64 / 1e9`, i.e. the correctly rounded binary64
value of `40_000_000 / 1_000_000_000`. -/
def refill_period_secs : F64 := f64_div 40000000 1000000000

/-- `(bytes_per_sec as f64 * DEFAULT_REFILL_PERIOD.as_secs_f64()) as usize`
(line 192): the epoch budget derived from a bytes-per-second rate. -/
def epoch_bytes (bytes_per_sec : ℕ) : ℕ :=
  f64_trunc_nat (f64_mul (f64_of_nat bytes_per_sec) refill_period_secs)

/-- `PriorityBasedIORateLimiter::set_bytes_per_sec` (lines 191-203): swap the
new epoch budget into the High tier; if the limiter was just toggled on or
off (`before == 0 || now == 0`), also store the same value into Medium and
Low (done under the protected mutex in the source). -/
def set_bytes_per_sec (s : LimiterState) (bytes_per_sec : ℕ) : LimiterState :=
  let now := epoch_bytes bytes_per_sec
  let before := s.bytesPerEpoch.get IOPriority.High
  let s1 := { s with bytesPerEpoch := s.bytesPerEpoch.set IOPriority.High now }
  if before = 0 ∨ now = 0 then
    { s1 with bytesPerEpoch :=
        (s1.bytesPerEpoch.set IOPriority.Medium now).set IOPriority.Low now }
  else
    s1

/-- The budget calibrated for the Medium tier by the `p = High` iteration of
the refill loop (lines 233-254): feed `min(bytes_through[High], limit)` to the
High estimator; on an estimate, `limit - estimate` floored at `1` (this value
is stored into `bytes_per_epoch[Medium]`); otherwise the previously stored
`bytes_per_epoch[Medium]` is loaded back, so in both cases this is the limit
carried into the `p = Medium` iteration. -/
def mid_limit (s : LimiterState) : ℕ :=
  let limit := s.bytesPerEpoch.get IOPriority.High
  match (maybe_update_estimation (s.estimators.get IOPriority.High)
      (min (s.bytesThrough.get IOPriority.High) limit)).1 with
  | some bt => if bt < limit then limit - bt else 1
  | none => s.bytesPerEpoch.get IOPriority.Medium

/-- The budget calibrated for the Low tier by the `p = Medium` iteration of
the refill loop, with `mid_limit` as the incoming limit. -/
def low_limit (s : LimiterState) : ℕ :=
  let limit := mid_limit s
  match (maybe_update_estimation (s.estimators.get IOPriority.Medium)
      (min (s.bytesThrough.get IOPriority.Medium) limit)).1 with
  | some bt => if bt < limit then limit - bt else 1
  | none => s.bytesPerEpoch.get IOPriority.Low

/-- The body of `PriorityBasedIORateLimiter::refill` past its two early
returns (lines 229-262), as one state transformer.  Per source iteration
(`p = High, Medium`, then the trailing Low block):
`bytes_through[p]` is swapped/stored to the pre-refill `pending_bytes[p]`;
`pending_bytes[p]` is `saturating_sub`-ed by that tier's limit (for `ℕ`,
truncated subtraction is exactly `saturating_sub`); the High and Medium
estimators absorb `min(old bytes_through[p], limit)`; the Medium and Low
budgets become `mid_limit`/`low_limit` (when the estimator emits nothing the
source skips the store and loads the old value back, which leaves the same
state); `next_refill_time` is re-synchronised to `now + DEFAULT_REFILL_PERIOD`. -/
def refill_body (s : LimiterState) (now : ℕ) : LimiterState :=
  let limit0 := s.bytesPerEpoch.get IOPriority.High
  let limit1 := mid_limit s
  let limit2 := low_limit s
  { bytesThrough := ⟨s.pendingBytes.get IOPriority.Low,
      s.pendingBytes.get IOPriority.Medium,
      s.pendingBytes.get IOPriority.High⟩
    bytesPerEpoch := ⟨limit2, limit1, limit0⟩
    nextRefillTime := now + DEFAULT_REFILL_PERIOD
    pendingBytes := ⟨s.pendingBytes.get IOPriority.Low - limit2,
      s.pendingBytes.get IOPriority.Medium - limit1,
      s.pendingBytes.get IOPriority.High - limit0⟩
    estimators := ⟨s.estimators.get IOPriority.Low,
      (maybe_update_estimation (s.estimators.get IOPriority.Medium)
        (min (s.bytesThrough.get IOPriority.Medium) limit1)).2,
      (maybe_update_estimation (s.estimators.get IOPriority.High)
        (min (s.bytesThrough.get IOPriority.High) limit0)).2⟩ }

/-- `PriorityBasedIORateLimiter::refill` (lines 216-262): return unchanged if
the limiter is disabled (`bytes_per_epoch[High] == 0`) or a refill already
ran for this epoch (`next_refill_time > now + DEFAULT_REFILL_PERIOD / 2`);
otherwise run the refill body. -/
def refill (s : LimiterState) (now : ℕ) : LimiterState :=
  if s.bytesPerEpoch.get IOPriority.High = 0 then s
  else if now + DEFAULT_REFILL_PERIOD / 2 < s.nextRefillTime then s
  else refill_body s now

/-- One iteration of the `loop` in the `request_imp!` macro (lines 136-177).
Returns `Sum.inl (granted, wait, state)` when the iteration returns from the
function (with the wait duration, in ms, that would be slept) and
`Sum.inr state` when the iteration hits `continue` (observe that the
`fetch_add` pre-charge of this iteration persists into the retry). -/
def request_step (s : LimiterState) (priority : IOPriority) (amt now : ℕ) :
    (ℕ × ℕ × LimiterState) ⊕ LimiterState :=
  let cached := s.bytesPerEpoch.get priority
  if cached = 0 then
    Sum.inl (amt, 0, s)
  else
    let amount := min amt cached
    let bytes_through := s.bytesThrough.get priority + amount
    let s1 := { s with bytesThrough := s.bytesThrough.set priority bytes_through }
    if bytes_through ≤ cached then
      Sum.inl (amount, 0, s1)
    else if now + DEFAULT_REFILL_PERIOD ≤ s1.nextRefillTime + 1 then
      -- `locked.next_refill_time + 1ms >= now + DEFAULT_REFILL_PERIOD`:
      -- a refill slipped in; retry.
      Sum.inr s1
    else
      let pending := s1.pendingBytes.get priority + amount
      let s2 := { s1 with pendingBytes := s1.pendingBytes.set priority pending }
      -- `DEFAULT_REFILL_PERIOD * (pending / cached_bytes_per_refill) as u32`
      let wait := DEFAULT_REFILL_PERIOD * (pending / cached % 2 ^ 32)
      if now < s2.nextRefillTime then
        Sum.inl (amount, wait + (s2.nextRefillTime - now), s2)
      else if s2.nextRefillTime + DEFAULT_REFILL_PERIOD / 2 < now then
        -- expected refill delayed too long: refill synchronously
        Sum.inl (amount, wait, refill s2 now)
      else
        Sum.inl (amount, wait, s2)

/-- `PriorityBasedIORateLimiter::request` (lines 205-207), i.e. the sync
expansion of `request_imp!`: iterate `request_step` until it returns.  The
sequential embedding freezes the clock at `now`, so the retry loop is given
explicit fuel; `none` means the fuel ran out mid-loop. -/
def PriorityBasedIORateLimiter.request :
    ℕ → LimiterState → IOPriority → ℕ → ℕ → Option (ℕ × ℕ × LimiterState)
  | 0, _, _, _, _ => none
  | fuel + 1, s, priority, amt, now =>
    match request_step s priority amt now with
    | Sum.inl r => some r
    | Sum.inr s1 => PriorityBasedIORateLimiter.request fuel s1 priority amt now

/-- `PriorityBasedIORateLimiter::async_request` (lines 209-211): the async
expansion of the same `request_imp!` macro; the only difference in the source
is the suspension primitive chosen by `do_sleep!`, which the embedding does
not execute. -/
def PriorityBasedIORateLimiter.async_request :
    ℕ → LimiterState → IOPriority → ℕ → ℕ → Option (ℕ × ℕ × LimiterState)
  | 0, _, _, _, _ => none
  | fuel + 1, s, priority, amt, now =>
    match request_step s priority amt now with
    | Sum.inl r => some r
    | Sum.inr s1 => PriorityBasedIORateLimiter.async_request fuel s1 priority amt now

/-- An array of byte counters indexed by `IOType`
(`[CachePadded<AtomicUsize>; IOType::COUNT]`, restricted to the modelled
variants). -/
structure TArr : Type where
  fg : ℕ
  comp : ℕ
  imp : ℕ
deriving DecidableEq, Repr

/-- Indexing a per-type counter array. -/
def TArr.get (a : TArr) : IOType → ℕ
  | IOType.ForegroundWrite => a.fg
  | IOType.Compaction => a.comp
  | IOType.Imported => a.imp

/-- Adding to a per-type counter array. -/
def TArr.add (a : TArr) : IOType → ℕ → TArr
  | IOType.ForegroundWrite, v => { a with fg := a.fg + v }
  | IOType.Compaction, v => { a with comp := a.comp + v }
  | IOType.Imported, v => { a with imp := a.imp + v }

/-- `IORateLimiterStatistics` (lines 22-26). -/
structure IORateLimiterStatistics : Type where
  read_bytes : TArr
  write_bytes : TArr
deriving DecidableEq, Repr

/-- `IORateLimiterStatistics::record` (lines 44-54). -/
def IORateLimiterStatistics.record (st : IORateLimiterStatistics)
    (io_type : IOType) (io_op : IOOp) (bytes : ℕ) : IORateLimiterStatistics :=
  match io_op with
  | IOOp.Read => { st with read_bytes := st.read_bytes.add io_type bytes }
  | IOOp.Write => { st with write_bytes := st.write_bytes.add io_type bytes }

/-- The priority map of the facade (`priority_map: [IOPriority; IOType::COUNT]`). -/
structure PMap : Type where
  fg : IOPriority
  comp : IOPriority
  imp : IOPriority
deriving DecidableEq, Repr

/-- Indexing the priority map. -/
def PMap.get (m : PMap) : IOType → IOPriority
  | IOType.ForegroundWrite => m.fg
  | IOType.Compaction => m.comp
  | IOType.Imported => m.imp

/-- `IORateLimiter` (lines 266-271): the facade. -/
structure IORateLimiter : Type where
  priority_map : PMap
  throughput_limiter : LimiterState
  stats : Option IORateLimiterStatistics
deriving DecidableEq, Repr

/-- `IORateLimiter::request` (lines 305-314): writes go through the throttle
at the mapped priority; reads bypass it; granted bytes are recorded into the
statistics when enabled.  Returns the granted amount and the updated facade
state (`none` only when the underlying retry loop runs out of fuel). -/
def IORateLimiter.request (l : IORateLimiter) (io_type : IOType) (io_op : IOOp)
    (bytes : ℕ) (now fuel : ℕ) : Option (ℕ × IORateLimiter) :=
  match io_op with
  | IOOp.Write =>
    match PriorityBasedIORateLimiter.request fuel l.throughput_limiter
        (l.priority_map.get io_type) bytes now with
    | none => none
    | some (granted, _wait, s1) =>
      some (granted,
        { l with throughput_limiter := s1,
                 stats := l.stats.map (fun st => st.record io_type io_op granted) })
  | IOOp.Read =>
    some (bytes, { l with stats := l.stats.map (fun st => st.record io_type io_op bytes) })

/-- The states of `PriorityBasedIORateLimiter` reachable from a fresh
instance by any sequence of `set_bytes_per_sec`, completed `request` calls
and `refill` calls (the operation surface named by the spec's invariant
section). -/
inductive Reachable : LimiterState → Prop
| new : ∀ t0 : ℕ, Reachable (LimiterState.new t0)
| set : ∀ s rate, Reachable s → Reachable (set_bytes_per_sec s rate)
| req : ∀ s fuel priority amt now granted wait s1, Reachable s →
    PriorityBasedIORateLimiter.request fuel s priority amt now =
      some (granted, wait, s1) → Reachable s1
| ref : ∀ s now, Reachable s → Reachable (refill s now)

/-! Helper lemmas shared by the claim theorems. -/

/-- Unfolding lemma: one estimator step that does not complete a window. -/
lemma maybe_update_not_window (e : IOThroughputEstimator) (v : ℕ)
    (h : (e.count + 1) % WINDOW_SIZE ≠ 0) :
    maybe_update_estimation e v = (none, ⟨e.count + 1, e.sum + v⟩) := by
  simp only [maybe_update_estimation]
  rw [if_neg h]

/-- Unfolding lemma: one estimator step that completes a window. -/
lemma maybe_update_window (e : IOThroughputEstimator) (v : ℕ)
    (h : (e.count + 1) % WINDOW_SIZE = 0) :
    maybe_update_estimation e v =
      (some ((e.sum + v) / WINDOW_SIZE), ⟨e.count + 1, 0⟩) := by
  simp only [maybe_update_estimation]
  rw [if_pos h]

/-- The floored-difference branch in the refill calibration equals a `max`
with floor `1`. -/
lemma calib_floor_eq_max (L e : ℕ) :
    (if e < L then L - e else 1) = max (L - e) 1 := by
  split
  · exact (max_eq_left (by omega)).symm
  · have h0 : L - e = 0 := by omega
    rw [h0]
    simp

/-- When the guards pass, `refill` runs its body. -/
lemma refill_eq_body (s : LimiterState) (now : ℕ)
    (h1 : s.bytesPerEpoch.get IOPriority.High ≠ 0)
    (h2 : ¬ now + DEFAULT_REFILL_PERIOD / 2 < s.nextRefillTime) :
    refill s now = refill_body s now := by
  rw [refill, if_neg h1, if_neg h2]

/-- A `request_step` retry (`continue`) only bumps `bytes_through`; in
particular the budgets survive unchanged into the next loop iteration. -/
lemma request_step_inr (s : LimiterState) (p : IOPriority) (amt now : ℕ)
    (s1 : LimiterState) (h : request_step s p amt now = Sum.inr s1) :
    s1.bytesPerEpoch = s.bytesPerEpoch ∧ s.bytesPerEpoch.get p ≠ 0 := by
  unfold request_step at h
  by_cases h0 : s.bytesPerEpoch.get p = 0
  · rw [if_pos h0] at h
    exact absurd h (by simp)
  · rw [if_neg h0] at h
    refine ⟨?_, h0⟩
    dsimp only at h
    split at h
    · exact absurd h (by simp)
    · split at h
      · cases h
        rfl
      · split at h <;> [skip; split at h] <;> exact absurd h (by simp)

/-- A `request_step` that returns grants the full amount on a zero budget
(leaving the state untouched) and otherwise grants the amount clamped to the
budget. -/
lemma request_step_inl (s : LimiterState) (p : IOPriority) (amt now : ℕ)
    (g w : ℕ) (s1 : LimiterState)
    (h : request_step s p amt now = Sum.inl (g, w, s1)) :
    (s.bytesPerEpoch.get p = 0 ∧ g = amt ∧ w = 0 ∧ s1 = s) ∨
    (s.bytesPerEpoch.get p ≠ 0 ∧ g = min amt (s.bytesPerEpoch.get p)) := by
  unfold request_step at h
  by_cases h0 : s.bytesPerEpoch.get p = 0
  · rw [if_pos h0] at h
    simp only [Sum.inl.injEq, Prod.mk.injEq] at h
    exact Or.inl ⟨h0, h.1.symm, h.2.1.symm, h.2.2.symm⟩
  · rw [if_neg h0] at h
    dsimp only at h
    refine Or.inr ⟨h0, ?_⟩
    split at h
    · simp only [Sum.inl.injEq, Prod.mk.injEq] at h
      exact h.1.symm
    · split at h
      · exact absurd h (by simp)
      · split at h <;> [skip; split at h] <;>
          (simp only [Sum.inl.injEq, Prod.mk.injEq] at h; exact h.1.symm)

/-- C4: `maybe_update_estimation` increments the count on every call; on
every fifth sample (count divisible by `WINDOW_SIZE = 5`) it emits the
integer arithmetic mean of the five samples accumulated since the last
emission and resets the running sum to zero; on all other calls it emits
nothing and the sum retains the partial accumulation.  The five-sample part
is stated for any estimator just past an emission boundary
(`count % 5 = 0`, `sum = 0`). -/
theorem maybe_update_estimation_window_mean :
    (∀ (e : IOThroughputEstimator) (v : ℕ),
      (maybe_update_estimation e v).2.count = e.count + 1) ∧
    (∀ (e : IOThroughputEstimator) (v : ℕ), (e.count + 1) % WINDOW_SIZE = 0 →
      (maybe_update_estimation e v).1 = some ((e.sum + v) / WINDOW_SIZE) ∧
      (maybe_update_estimation e v).2.sum = 0) ∧
    (∀ (e : IOThroughputEstimator) (v : ℕ), (e.count + 1) % WINDOW_SIZE ≠ 0 →
      (maybe_update_estimation e v).1 = none ∧
      (maybe_update_estimation e v).2.sum = e.sum + v) ∧
    (∀ (e : IOThroughputEstimator) (v1 v2 v3 v4 v5 : ℕ),
      e.count % WINDOW_SIZE = 0 → e.sum = 0 →
      (maybe_update_estimation e v1).1 = none ∧
      (maybe_update_estimation (maybe_update_estimation e v1).2 v2).1 = none ∧
      (maybe_update_estimation (maybe_update_estimation
        (maybe_update_estimation e v1).2 v2).2 v3).1 = none ∧
      (maybe_update_estimation (maybe_update_estimation (maybe_update_estimation
        (maybe_update_estimation e v1).2 v2).2 v3).2 v4).1 = none ∧
      (maybe_update_estimation (maybe_update_estimation (maybe_update_estimation
        (maybe_update_estimation (maybe_update_estimation
          e v1).2 v2).2 v3).2 v4).2 v5).1 =
        some ((v1 + v2 + v3 + v4 + v5) / WINDOW_SIZE) ∧
      (maybe_update_estimation (maybe_update_estimation (maybe_update_estimation
        (maybe_update_estimation (maybe_update_estimation
          e v1).2 v2).2 v3).2 v4).2 v5).2.sum = 0) := by
  refine ⟨?_, ?_, ?_, ?_⟩
  · intro e v
    by_cases h : (e.count + 1) % WINDOW_SIZE = 0
    · rw [maybe_update_window e v h]
    · rw [maybe_update_not_window e v h]
  · intro e v h
    rw [maybe_update_window e v h]
    exact ⟨rfl, rfl⟩
  · intro e v h
    rw [maybe_update_not_window e v h]
    exact ⟨rfl, rfl⟩
  · intro e v1 v2 v3 v4 v5 hc hs
    obtain ⟨c, su⟩ := e
    simp only at hc hs
    subst hs
    simp only [WINDOW_SIZE] at hc
    rw [maybe_update_not_window _ v1 (by simp only [WINDOW_SIZE]; omega)]
    rw [maybe_update_not_window _ v2 (by simp only [WINDOW_SIZE]; omega)]
    rw [maybe_update_not_window _ v3 (by simp only [WINDOW_SIZE]; omega)]
    rw [maybe_update_not_window _ v4 (by simp only [WINDOW_SIZE]; omega)]
    rw [maybe_update_window _ v5 (by simp only [WINDOW_SIZE]; omega)]
    refine ⟨rfl, rfl, rfl, rfl, ?_, rfl⟩
    simp only [Option.some.injEq]
    congr 1
    omega

/-- Witness for C4 at a fresh estimator and samples 1..5: the first sample
emits nothing, the fifth emits the window mean 3. -/
theorem maybe_update_estimation_window_mean_witness :
    (maybe_update_estimation ⟨0, 0⟩ 1).1 = none ∧
    (maybe_update_estimation (maybe_update_estimation (maybe_update_estimation
      (maybe_update_estimation (maybe_update_estimation
        (⟨0, 0⟩ : IOThroughputEstimator) 1).2 2).2 3).2 4).2 5).1 = some 3 := by
  have h := maybe_update_estimation_window_mean.2.2.2 ⟨0, 0⟩ 1 2 3 4 5 rfl rfl
  exact ⟨h.1, h.2.2.2.2.1.trans (by decide)⟩

/-- C5: `set_bytes_per_sec(rate)` stores the converted epoch budget
`epoch_bytes rate` (the truncated `f64` product `rate × epoch_period`) into
the High tier; when the call toggles the limiter (previous High budget zero,
or new value zero) it also stores the same value into Medium and Low;
otherwise Medium and Low are untouched. -/
theorem set_bytes_per_sec_toggle (s : LimiterState) (rate : ℕ) :
    (set_bytes_per_sec s rate).bytesPerEpoch.get IOPriority.High = epoch_bytes rate ∧
    ((s.bytesPerEpoch.get IOPriority.High = 0 ∨ epoch_bytes rate = 0) →
      (set_bytes_per_sec s rate).bytesPerEpoch.get IOPriority.Medium = epoch_bytes rate ∧
      (set_bytes_per_sec s rate).bytesPerEpoch.get IOPriority.Low = epoch_bytes rate) ∧
    (s.bytesPerEpoch.get IOPriority.High ≠ 0 → epoch_bytes rate ≠ 0 →
      (set_bytes_per_sec s rate).bytesPerEpoch.get IOPriority.Medium =
        s.bytesPerEpoch.get IOPriority.Medium ∧
      (set_bytes_per_sec s rate).bytesPerEpoch.get IOPriority.Low =
        s.bytesPerEpoch.get IOPriority.Low) := by
  unfold set_bytes_per_sec
  by_cases h : s.bytesPerEpoch.get IOPriority.High = 0 ∨ epoch_bytes rate = 0
  · rw [if_pos h]
    refine ⟨rfl, fun _ => ⟨rfl, rfl⟩, fun hb hn => absurd h (by tauto)⟩
  · rw [if_neg h]
    exact ⟨rfl, fun hh => absurd hh h, fun _ _ => ⟨rfl, rfl⟩⟩

/-- Witness for C5: enabling a fresh (all-zero) limiter at 1000 B/s sets all
three budgets to the 40 ms epoch budget of 40 bytes. -/
theorem set_bytes_per_sec_toggle_witness :
    (set_bytes_per_sec (LimiterState.new 0) 1000).bytesPerEpoch.get IOPriority.High =
      epoch_bytes 1000 ∧
    (set_bytes_per_sec (LimiterState.new 0) 1000).bytesPerEpoch.get IOPriority.Medium =
      epoch_bytes 1000 := by
  have h := set_bytes_per_sec_toggle (LimiterState.new 0) 1000
  exact ⟨h.1, (h.2.1 (Or.inl rfl)).1⟩

/-- C7 counterexample: on a never-enabled limiter whose first epoch has long
expired (fresh state with `next_refill_time = 40`, current time `now = 100`),
`refill` early-returns and leaves `next_refill_time = 40 ≤ now`, so the claim
"after every refill() call, next_refill_time > now" is false as stated. -/
theorem refill_next_refill_time_counterexample :
    refill (LimiterState.new 0) 100 = LimiterState.new 0 ∧
    ¬ 100 < (refill (LimiterState.new 0) 100).nextRefillTime := by decide

/-- C7 (amended): whenever the High budget is positive, `refill` leaves
`next_refill_time > now`; and whenever it proceeds past its early-return
guards it sets `next_refill_time` to exactly `now + DEFAULT_REFILL_PERIOD`. -/
theorem refill_next_refill_time (s : LimiterState) (now : ℕ)
    (h : s.bytesPerEpoch.get IOPriority.High ≠ 0) :
    now < (refill s now).nextRefillTime ∧
    (¬ now + DEFAULT_REFILL_PERIOD / 2 < s.nextRefillTime →
      (refill s now).nextRefillTime = now + DEFAULT_REFILL_PERIOD) := by
  by_cases h2 : now + DEFAULT_REFILL_PERIOD / 2 < s.nextRefillTime
  · rw [refill, if_neg h, if_pos h2]
    exact ⟨by omega, fun hc => absurd h2 hc⟩
  · rw [refill_eq_body s now h h2]
    unfold refill_body
    exact ⟨by simp [DEFAULT_REFILL_PERIOD], fun _ => rfl⟩

/-- Witness for C7 at an enabled, stale state: refilling at `now = 7` moves
`next_refill_time` to `47 > 7`. -/
theorem refill_next_refill_time_witness :
    7 < (refill ⟨⟨0, 0, 0⟩, ⟨0, 0, 9⟩, 0, ⟨0, 0, 0⟩,
        ⟨⟨0, 0⟩, ⟨0, 0⟩, ⟨0, 0⟩⟩⟩ 7).nextRefillTime ∧
    (refill ⟨⟨0, 0, 0⟩, ⟨0, 0, 9⟩, 0, ⟨0, 0, 0⟩,
        ⟨⟨0, 0⟩, ⟨0, 0⟩, ⟨0, 0⟩⟩⟩ 7).nextRefillTime = 47 := by
  have h := refill_next_refill_time
    ⟨⟨0, 0, 0⟩, ⟨0, 0, 9⟩, 0, ⟨0, 0, 0⟩, ⟨⟨0, 0⟩, ⟨0, 0⟩, ⟨0, 0⟩⟩⟩ 7 (by decide)
  exact ⟨h.1, (h.2 (by decide)).trans (by decide)⟩

/-- C8: `refill` taken on either early-return branch (disabled limiter, or a
refill already ran for this epoch) leaves the entire state unchanged, and a
duplicate `refill` at the same instant is always a no-op, so duplicate-close
calls are idempotent. -/
theorem refill_early_return_frame (s : LimiterState) (now : ℕ) :
    ((s.bytesPerEpoch.get IOPriority.High = 0 ∨
        now + DEFAULT_REFILL_PERIOD / 2 < s.nextRefillTime) →
      refill s now = s) ∧
    refill (refill s now) now = refill s now := by
  constructor
  · intro h
    rcases h with h | h
    · rw [refill, if_pos h]
    · rw [refill]
      by_cases h0 : s.bytesPerEpoch.get IOPriority.High = 0
      · rw [if_pos h0]
      · rw [if_neg h0, if_pos h]
  · by_cases h0 : s.bytesPerEpoch.get IOPriority.High = 0
    · have he : refill s now = s := by rw [refill, if_pos h0]
      rw [he]
      exact he
    · by_cases h2 : now + DEFAULT_REFILL_PERIOD / 2 < s.nextRefillTime
      · have he : refill s now = s := by rw [refill, if_neg h0, if_pos h2]
        rw [he]
        exact he
      · have he := refill_eq_body s now h0 h2
        rw [he]
        have hb : (refill_body s now).bytesPerEpoch.get IOPriority.High =
            s.bytesPerEpoch.get IOPriority.High := rfl
        have ht : (refill_body s now).nextRefillTime = now + DEFAULT_REFILL_PERIOD := rfl
        rw [refill, if_neg (by rw [hb]; exact h0),
          if_pos (by rw [ht]; simp [DEFAULT_REFILL_PERIOD])]

/-- Witness for C8: a fresh, disabled limiter is untouched by `refill`. -/
theorem refill_early_return_frame_witness :
    refill (LimiterState.new 5) 0 = LimiterState.new 5 :=
  (refill_early_return_frame (LimiterState.new 5) 0).1 (Or.inl rfl)

/-- C9: `async_request` returns the same granted value, the same wait
duration, and the same final state as `request` on every input; the two
macro expansions differ only in the suspension primitive, which the
embedding does not execute. -/
theorem async_request_eq_request :
    ∀ (fuel : ℕ) (s : LimiterState) (priority : IOPriority) (amt now : ℕ),
      PriorityBasedIORateLimiter.async_request fuel s priority amt now =
      PriorityBasedIORateLimiter.request fuel s priority amt now := by
  intro fuel
  induction fuel with
  | zero => intro s priority amt now; rfl
  | succ n ih =>
    intro s priority amt now
    rw [PriorityBasedIORateLimiter.async_request, PriorityBasedIORateLimiter.request]
    cases request_step s priority amt now with
    | inl r => rfl
    | inr s1 => exact ih s1 priority amt now

set_option maxRecDepth 100000 in
/-- C10: because the epoch budget is the truncation of the `f64` product
`rate × 0.04`, every positive rate strictly below 25 B/s yields a zero High
budget, leaving the limiter fully disabled. -/
theorem small_rate_yields_zero_budget :
    ∀ rate : ℕ, rate < 25 → 0 < rate →
      epoch_bytes rate = 0 ∧
      (set_bytes_per_sec (LimiterState.new 0) rate).bytesPerEpoch.get
        IOPriority.High = 0 := by decide

set_option maxRecDepth 100000 in
/-- Witness for C10 at rate 24 B/s. -/
theorem small_rate_yields_zero_budget_witness :
    epoch_bytes 24 = 0 ∧
    (set_bytes_per_sec (LimiterState.new 0) 24).bytesPerEpoch.get
      IOPriority.High = 0 :=
  small_rate_yields_zero_budget 24 (by decide) (by decide)

/-- C2: for a `refill` that proceeds past its guards, every tier's
`bytes_through` is reset to the `pending_bytes` value held before the refill,
the High and Medium estimators are fed `min(old bytes_through, limit)` (with
`limit` the tier's own budget for that iteration), and each tier's
`pending_bytes` becomes `pending_bytes - limit` under `ℕ`'s truncated
subtraction, which is exactly `saturating_sub` and so never goes negative. -/
theorem refill_epoch_accounting (s : LimiterState) (now : ℕ)
    (h1 : s.bytesPerEpoch.get IOPriority.High ≠ 0)
    (h2 : ¬ now + DEFAULT_REFILL_PERIOD / 2 < s.nextRefillTime) :
    (∀ p, (refill s now).bytesThrough.get p = s.pendingBytes.get p) ∧
    (refill s now).pendingBytes.get IOPriority.High =
      s.pendingBytes.get IOPriority.High - s.bytesPerEpoch.get IOPriority.High ∧
    (refill s now).pendingBytes.get IOPriority.Medium =
      s.pendingBytes.get IOPriority.Medium - mid_limit s ∧
    (refill s now).pendingBytes.get IOPriority.Low =
      s.pendingBytes.get IOPriority.Low - low_limit s ∧
    (refill s now).estimators.get IOPriority.High =
      (maybe_update_estimation (s.estimators.get IOPriority.High)
        (min (s.bytesThrough.get IOPriority.High)
          (s.bytesPerEpoch.get IOPriority.High))).2 ∧
    (refill s now).estimators.get IOPriority.Medium =
      (maybe_update_estimation (s.estimators.get IOPriority.Medium)
        (min (s.bytesThrough.get IOPriority.Medium) (mid_limit s))).2 := by
  rw [refill_eq_body s now h1 h2]
  refine ⟨fun p => ?_, rfl, rfl, rfl, rfl, rfl⟩
  cases p <;> rfl

/-- Witness for C2: a concrete refill on an enabled, due limiter resets the
High counter to the carried debt 3 and clears the High debt (3 - 10
saturates to 0). -/
theorem refill_epoch_accounting_witness :
    (refill ⟨⟨4, 5, 6⟩, ⟨0, 0, 10⟩, 0, ⟨1, 2, 3⟩,
        ⟨⟨0, 0⟩, ⟨0, 0⟩, ⟨0, 0⟩⟩⟩ 0).bytesThrough.get IOPriority.High = 3 ∧
    (refill ⟨⟨4, 5, 6⟩, ⟨0, 0, 10⟩, 0, ⟨1, 2, 3⟩,
        ⟨⟨0, 0⟩, ⟨0, 0⟩, ⟨0, 0⟩⟩⟩ 0).pendingBytes.get IOPriority.High = 0 := by
  have h := refill_epoch_accounting
    ⟨⟨4, 5, 6⟩, ⟨0, 0, 10⟩, 0, ⟨1, 2, 3⟩, ⟨⟨0, 0⟩, ⟨0, 0⟩, ⟨0, 0⟩⟩⟩ 0
    (by decide) (by decide)
  exact ⟨(h.1 IOPriority.High).trans (by decide), h.2.1.trans (by decide)⟩

/-- C3: in a `refill` past its guards, for each of the two calibrating tiers:
if the tier's estimator emits an estimate, the budget stored into the
next-lower tier is `max (limit - estimate) 1` and is the limit used for the
next iteration (`mid_limit` feeds the Medium iteration, `low_limit` is the
Low budget); if no estimate is emitted, the lower tier's budget is left
unchanged and the carried limit is the previously stored value. -/
theorem refill_calibration (s : LimiterState) (now : ℕ)
    (h1 : s.bytesPerEpoch.get IOPriority.High ≠ 0)
    (h2 : ¬ now + DEFAULT_REFILL_PERIOD / 2 < s.nextRefillTime) :
    (∀ e, (maybe_update_estimation (s.estimators.get IOPriority.High)
        (min (s.bytesThrough.get IOPriority.High)
          (s.bytesPerEpoch.get IOPriority.High))).1 = some e →
      mid_limit s = max (s.bytesPerEpoch.get IOPriority.High - e) 1 ∧
      (refill s now).bytesPerEpoch.get IOPriority.Medium =
        max (s.bytesPerEpoch.get IOPriority.High - e) 1) ∧
    ((maybe_update_estimation (s.estimators.get IOPriority.High)
        (min (s.bytesThrough.get IOPriority.High)
          (s.bytesPerEpoch.get IOPriority.High))).1 = none →
      mid_limit s = s.bytesPerEpoch.get IOPriority.Medium ∧
      (refill s now).bytesPerEpoch.get IOPriority.Medium =
        s.bytesPerEpoch.get IOPriority.Medium) ∧
    (∀ e, (maybe_update_estimation (s.estimators.get IOPriority.Medium)
        (min (s.bytesThrough.get IOPriority.Medium) (mid_limit s))).1 = some e →
      low_limit s = max (mid_limit s - e) 1 ∧
      (refill s now).bytesPerEpoch.get IOPriority.Low = max (mid_limit s - e) 1) ∧
    ((maybe_update_estimation (s.estimators.get IOPriority.Medium)
        (min (s.bytesThrough.get IOPriority.Medium) (mid_limit s))).1 = none →
      low_limit s = s.bytesPerEpoch.get IOPriority.Low ∧
      (refill s now).bytesPerEpoch.get IOPriority.Low =
        s.bytesPerEpoch.get IOPriority.Low) := by
  rw [refill_eq_body s now h1 h2]
  have hmid : (refill_body s now).bytesPerEpoch.get IOPriority.Medium = mid_limit s := rfl
  have hlow : (refill_body s now).bytesPerEpoch.get IOPriority.Low = low_limit s := rfl
  refine ⟨fun e he => ?_, fun he => ?_, fun e he => ?_, fun he => ?_⟩
  · have hm : mid_limit s = max (s.bytesPerEpoch.get IOPriority.High - e) 1 := by
      rw [← calib_floor_eq_max]
      simp only [mid_limit]
      rw [he]
    exact ⟨hm, hmid.trans hm⟩
  · have hm : mid_limit s = s.bytesPerEpoch.get IOPriority.Medium := by
      simp only [mid_limit]
      rw [he]
    exact ⟨hm, hmid.trans hm⟩
  · have hl : low_limit s = max (mid_limit s - e) 1 := by
      rw [← calib_floor_eq_max]
      simp only [low_limit]
      rw [he]
    exact ⟨hl, hlow.trans hl⟩
  · have hl : low_limit s = s.bytesPerEpoch.get IOPriority.Low := by
      simp only [low_limit]
      rw [he]
    exact ⟨hl, hlow.trans hl⟩

/-- Witness for C3: with the High estimator one sample short of a window and
budget 10, the refill emits the window mean 2 and stores `10 - 2 = 8` as the
Medium budget. -/
theorem refill_calibration_witness :
    mid_limit ⟨⟨0, 0, 3⟩, ⟨0, 0, 10⟩, 0, ⟨0, 0, 0⟩,
      ⟨⟨0, 0⟩, ⟨0, 0⟩, ⟨4, 7⟩⟩⟩ = 8 ∧
    (refill ⟨⟨0, 0, 3⟩, ⟨0, 0, 10⟩, 0, ⟨0, 0, 0⟩,
      ⟨⟨0, 0⟩, ⟨0, 0⟩, ⟨4, 7⟩⟩⟩ 0).bytesPerEpoch.get IOPriority.Medium = 8 := by
  have h := refill_calibration
    ⟨⟨0, 0, 3⟩, ⟨0, 0, 10⟩, 0, ⟨0, 0, 0⟩, ⟨⟨0, 0⟩, ⟨0, 0⟩, ⟨4, 7⟩⟩⟩ 0
    (by decide) (by decide)
  have h1 := h.1 2 (by decide)
  exact ⟨h1.1.trans (by decide), h1.2.trans (by decide)⟩

/-- A completed `request` call grants a positive amount clamped to the
amount asked and to the budget it observed (provided both are positive), and
short-circuits with the full amount, no wait and no state change when the
budget is zero.  The budget a retried iteration observes is the same as the
original one, since a retry only bumps `bytes_through`. -/
lemma request_some_bounds :
    ∀ (fuel : ℕ) (s : LimiterState) (priority : IOPriority)
      (amt now granted wait : ℕ) (s1 : LimiterState),
      PriorityBasedIORateLimiter.request fuel s priority amt now =
        some (granted, wait, s1) →
      (0 < s.bytesPerEpoch.get priority → 0 < amt →
        0 < granted ∧ granted ≤ amt ∧
        granted ≤ s.bytesPerEpoch.get priority) ∧
      (s.bytesPerEpoch.get priority = 0 →
        granted = amt ∧ wait = 0 ∧ s1 = s) := by
  intro fuel
  induction fuel with
  | zero =>
    intro s priority amt now granted wait s1 h
    exact absurd h (by rw [PriorityBasedIORateLimiter.request]; simp)
  | succ n ih =>
    intro s priority amt now granted wait s1 h
    rw [PriorityBasedIORateLimiter.request] at h
    rcases hstep : request_step s priority amt now with r | s2
    · rw [hstep] at h
      have hr : r = (granted, wait, s1) := Option.some.inj h
      rw [hr] at hstep
      rcases request_step_inl s priority amt now granted wait s1 hstep with
        ⟨h0, hg, hw, hs⟩ | ⟨h0, hg⟩
      · exact ⟨fun hpos _ => absurd h0 (by omega), fun _ => ⟨hg, hw, hs⟩⟩
      · refine ⟨fun hpos hamt => ?_, fun hz => absurd hz h0⟩
        rw [hg]
        exact ⟨lt_min hamt hpos, min_le_left _ _, min_le_right _ _⟩
    · rw [hstep] at h
      obtain ⟨hpe, hne⟩ := request_step_inr s priority amt now s2 hstep
      have hgp : s2.bytesPerEpoch.get priority = s.bytesPerEpoch.get priority := by
        rw [hpe]
      have H := ih s2 priority amt now granted wait s1 h
      refine ⟨fun hpos hamt => ?_, fun hz => absurd hz hne⟩
      have := H.1 (by rw [hgp]; exact hpos) hamt
      rw [hgp] at this
      exact this

/-- C1 counterexample: against a positive budget of 100, requesting amount 0
returns granted 0, refuting `0 < granted` for every call that observes a
positive budget.  (The state is returned unchanged: the `fetch_add` adds 0.) -/
theorem request_positive_grant_counterexample :
    (⟨⟨0, 0, 0⟩, ⟨0, 0, 100⟩, 40, ⟨0, 0, 0⟩, ⟨⟨0, 0⟩, ⟨0, 0⟩, ⟨0, 0⟩⟩⟩ :
        LimiterState).bytesPerEpoch.get IOPriority.High = 100 ∧
    PriorityBasedIORateLimiter.request 1
      ⟨⟨0, 0, 0⟩, ⟨0, 0, 100⟩, 40, ⟨0, 0, 0⟩, ⟨⟨0, 0⟩, ⟨0, 0⟩, ⟨0, 0⟩⟩⟩
      IOPriority.High 0 0 =
      some (0, 0, ⟨⟨0, 0, 0⟩, ⟨0, 0, 100⟩, 40, ⟨0, 0, 0⟩,
        ⟨⟨0, 0⟩, ⟨0, 0⟩, ⟨0, 0⟩⟩⟩) ∧
    ¬ (0 : ℕ) < 0 := by decide

/-- C1 (amended: the requested amount must be positive for the positive-grant
bound): every completed `request` that observes a positive budget and asks a
positive amount grants `0 < granted ≤ amount` with
`granted ≤ bytes_per_epoch[priority]`; a zero budget short-circuits with the
full amount; the facade returns the full amount for Read ops and inherits the
throttle bounds for Write ops. -/
theorem request_granted_bounds :
    (∀ (fuel : ℕ) (s : LimiterState) (priority : IOPriority)
        (amt now granted wait : ℕ) (s1 : LimiterState),
      PriorityBasedIORateLimiter.request fuel s priority amt now =
        some (granted, wait, s1) →
      (0 < s.bytesPerEpoch.get priority → 0 < amt →
        0 < granted ∧ granted ≤ amt ∧
        granted ≤ s.bytesPerEpoch.get priority) ∧
      (s.bytesPerEpoch.get priority = 0 →
        granted = amt ∧ wait = 0 ∧ s1 = s)) ∧
    (∀ (l : IORateLimiter) (io_type : IOType) (bytes now fuel : ℕ),
      (IORateLimiter.request l io_type IOOp.Read bytes now fuel).map Prod.fst =
        some bytes) ∧
    (∀ (l : IORateLimiter) (io_type : IOType) (bytes now fuel granted : ℕ)
        (l1 : IORateLimiter),
      IORateLimiter.request l io_type IOOp.Write bytes now fuel =
        some (granted, l1) →
      (0 < l.throughput_limiter.bytesPerEpoch.get (l.priority_map.get io_type) →
        0 < bytes →
        0 < granted ∧ granted ≤ bytes ∧
        granted ≤ l.throughput_limiter.bytesPerEpoch.get
          (l.priority_map.get io_type)) ∧
      (l.throughput_limiter.bytesPerEpoch.get (l.priority_map.get io_type) = 0 →
        granted = bytes)) := by
  refine ⟨request_some_bounds, fun l io_type bytes now fuel => rfl, ?_⟩
  intro l io_type bytes now fuel granted l1 h
  unfold IORateLimiter.request at h
  rcases hreq : PriorityBasedIORateLimiter.request fuel l.throughput_limiter
      (l.priority_map.get io_type) bytes now with _ | r
  · rw [hreq] at h
    exact absurd h (by simp)
  · obtain ⟨g2, w2, s2⟩ := r
    rw [hreq] at h
    have hg : g2 = granted := by
      have := Option.some.inj h
      exact congrArg Prod.fst this
    rw [hg] at hreq
    have H := request_some_bounds fuel l.throughput_limiter
      (l.priority_map.get io_type) bytes now granted w2 s2 hreq
    exact ⟨H.1, fun hz => (H.2 hz).1⟩

set_option maxRecDepth 100000 in
/-- Witness for C1: a request of 55 bytes against a fresh limiter enabled at
1000 B/s (epoch budget 40) grants 40 bytes: positive, at most the amount,
and at most the epoch budget. -/
theorem request_granted_bounds_witness :
    PriorityBasedIORateLimiter.request 1
      (set_bytes_per_sec (LimiterState.new 0) 1000) IOPriority.High 55 0 =
      some (40, 0, ⟨⟨0, 0, 40⟩, ⟨40, 40, 40⟩, 40, ⟨0, 0, 0⟩,
        ⟨⟨0, 0⟩, ⟨0, 0⟩, ⟨0, 0⟩⟩⟩) ∧
    0 < 40 ∧ 40 ≤ 55 ∧
    40 ≤ (set_bytes_per_sec (LimiterState.new 0) 1000).bytesPerEpoch.get
      IOPriority.High := by
  refine ⟨by decide, ?_⟩
  have H := request_granted_bounds.1 1 (set_bytes_per_sec (LimiterState.new 0) 1000)
    IOPriority.High 55 0 40 0
    ⟨⟨0, 0, 40⟩, ⟨40, 40, 40⟩, 40, ⟨0, 0, 0⟩, ⟨⟨0, 0⟩, ⟨0, 0⟩, ⟨0, 0⟩⟩⟩
    (by decide)
  exact H.1 (by decide) (by decide)

/-- The disabled-limiter invariant: a zero High budget forces zero Medium and
Low budgets. -/
def DisabledInv (s : LimiterState) : Prop :=
  s.bytesPerEpoch.get IOPriority.High = 0 →
    s.bytesPerEpoch.get IOPriority.Medium = 0 ∧
    s.bytesPerEpoch.get IOPriority.Low = 0

/-- `refill` never changes the High budget. -/
lemma refill_high_budget (s : LimiterState) (now : ℕ) :
    (refill s now).bytesPerEpoch.get IOPriority.High =
      s.bytesPerEpoch.get IOPriority.High := by
  unfold refill
  split
  · rfl
  · split
    · rfl
    · rfl

/-- The disabled-limiter invariant transfers along equal budget arrays. -/
lemma DisabledInv_of_bpe_eq (s s2 : LimiterState)
    (h : s2.bytesPerEpoch = s.bytesPerEpoch) (hi : DisabledInv s) :
    DisabledInv s2 := by
  intro h0
  rw [h] at h0
  have := hi h0
  rw [h]
  exact this

/-- `refill` preserves the disabled-limiter invariant. -/
lemma DisabledInv_refill (s : LimiterState) (now : ℕ) (h : DisabledInv s) :
    DisabledInv (refill s now) := by
  intro h0
  rw [refill_high_budget] at h0
  have he : refill s now = s := by rw [refill, if_pos h0]
  rw [he]
  exact h h0

/-- `set_bytes_per_sec` preserves the disabled-limiter invariant. -/
lemma DisabledInv_set_bytes_per_sec (s : LimiterState) (rate : ℕ)
    (_h : DisabledInv s) : DisabledInv (set_bytes_per_sec s rate) := by
  unfold set_bytes_per_sec
  by_cases hc : s.bytesPerEpoch.get IOPriority.High = 0 ∨ epoch_bytes rate = 0
  · rw [if_pos hc]
    intro h0
    exact ⟨h0, h0⟩
  · rw [if_neg hc]
    intro h0
    exact absurd (Or.inr h0) hc

/-- A returning `request_step` preserves the disabled-limiter invariant. -/
lemma DisabledInv_request_step_inl (s : LimiterState) (priority : IOPriority)
    (amt now granted wait : ℕ) (s1 : LimiterState)
    (hstep : request_step s priority amt now = Sum.inl (granted, wait, s1))
    (h : DisabledInv s) : DisabledInv s1 := by
  unfold request_step at hstep
  by_cases h0 : s.bytesPerEpoch.get priority = 0
  · rw [if_pos h0] at hstep
    simp only [Sum.inl.injEq, Prod.mk.injEq] at hstep
    rw [← hstep.2.2]
    exact h
  · rw [if_neg h0] at hstep
    dsimp only at hstep
    split at hstep
    · cases hstep
      intro hh
      exact h hh
    · split at hstep
      · exact absurd hstep (by simp)
      · split at hstep
        · cases hstep
          intro hh
          exact h hh
        · split at hstep
          · cases hstep
            exact DisabledInv_refill _ now (fun hh => h hh)
          · cases hstep
            intro hh
            exact h hh

/-- A completed `request` preserves the disabled-limiter invariant. -/
lemma DisabledInv_request :
    ∀ (fuel : ℕ) (s : LimiterState) (priority : IOPriority)
      (amt now granted wait : ℕ) (s1 : LimiterState),
      PriorityBasedIORateLimiter.request fuel s priority amt now =
        some (granted, wait, s1) →
      DisabledInv s → DisabledInv s1 := by
  intro fuel
  induction fuel with
  | zero =>
    intro s priority amt now granted wait s1 h
    exact absurd h (by rw [PriorityBasedIORateLimiter.request]; simp)
  | succ n ih =>
    intro s priority amt now granted wait s1 h hinv
    rw [PriorityBasedIORateLimiter.request] at h
    rcases hstep : request_step s priority amt now with r | s2
    · rw [hstep] at h
      have hr : r = (granted, wait, s1) := Option.some.inj h
      rw [hr] at hstep
      exact DisabledInv_request_step_inl s priority amt now granted wait s1 hstep hinv
    · rw [hstep] at h
      obtain ⟨hpe, _⟩ := request_step_inr s priority amt now s2 hstep
      exact ih s2 priority amt now granted wait s1 h
        (DisabledInv_of_bpe_eq s s2 hpe hinv)

/-- Every reachable state satisfies the disabled-limiter invariant. -/
lemma DisabledInv_reachable : ∀ s, Reachable s → DisabledInv s := by
  intro s h
  induction h with
  | new t0 => exact fun _ => ⟨rfl, rfl⟩
  | set s rate _ ih => exact DisabledInv_set_bytes_per_sec s rate ih
  | req s fuel priority amt now granted wait s1 _ hreq ih =>
    exact DisabledInv_request fuel s priority amt now granted wait s1 hreq ih
  | ref s now _ ih => exact DisabledInv_refill s now ih

/-- C6: in every state reachable from a fresh limiter by `set_bytes_per_sec`,
completed `request` calls and `refill` calls, a zero High budget implies zero
Medium and Low budgets, and in such a state every `request` (at any priority,
with any fuel) returns the full amount immediately with the state — in
particular `bytes_through` and `pending_bytes` — unchanged. -/
theorem disabled_limiter_invariant :
    ∀ s, Reachable s → s.bytesPerEpoch.get IOPriority.High = 0 →
      (s.bytesPerEpoch.get IOPriority.Medium = 0 ∧
        s.bytesPerEpoch.get IOPriority.Low = 0) ∧
      (∀ (priority : IOPriority) (amt now fuel : ℕ),
        PriorityBasedIORateLimiter.request (fuel + 1) s priority amt now =
          some (amt, 0, s)) := by
  intro s hr h0
  have hml := DisabledInv_reachable s hr h0
  refine ⟨hml, fun priority amt now fuel => ?_⟩
  have hp : s.bytesPerEpoch.get priority = 0 := by
    cases priority
    · exact hml.2
    · exact hml.1
    · exact h0
  have hstep : request_step s priority amt now = Sum.inl (amt, 0, s) := by
    unfold request_step
    rw [if_pos hp]
  rw [PriorityBasedIORateLimiter.request, hstep]

/-- Witness for C6 at the fresh (all budgets zero, hence disabled) state: the
invariant holds and a request for 5 bytes returns 5 with the state intact. -/
theorem disabled_limiter_invariant_witness :
    (LimiterState.new 0).bytesPerEpoch.get IOPriority.Medium = 0 ∧
    PriorityBasedIORateLimiter.request 1 (LimiterState.new 0)
      IOPriority.High 5 0 = some (5, 0, LimiterState.new 0) := by
  have h := disabled_limiter_invariant (LimiterState.new 0) (Reachable.new 0) rfl
  exact ⟨h.1.1, h.2 IOPriority.High 5 0 0⟩
